import Mathlib

/-!
# Verification of the Day 09 "Explosives in Cyberspace" decompressor

Shallow embedding of `src/Day 09 - Explosives in Cyberspace/src/main.rs`.

The Rust program parses the marker-compression format with nom 3.x macro
combinators over `&[u8]` and computes decompressed lengths.  We embed:

* strings as byte lists (`List Nat`); `str::from_utf8` is modelled as the
  identity on byte lists (faithful for ASCII inputs, which is the domain of
  every concrete input considered here);
* nom's streaming `IResult` with its three outcomes `Done`, `Error`,
  `Incomplete`; error kinds and the exact `Needed` payloads carried by
  `Incomplete` are collapsed (the program only ever converts the result with
  `to_full_result`, which maps both `Error` and `Incomplete` to `Err`);
* each nom combinator used by the source (`char!`, `digit`, `ws!`,
  `take_while!`, `take!`/`take_str!`, `alt!`, `many1!`, `peek!`,
  `length_value!`) as a function on byte lists with nom 3.x streaming
  semantics: primitives report `Incomplete` when the input ends too early,
  `alt!` falls through to the next branch only on `Error` (it propagates
  `Incomplete`), `many1!` stops (keeping the nodes parsed so far) when an
  iteration fails with `Error` or consumes nothing, and propagates
  `Incomplete`; `length_value!` maps an `Incomplete` of the inner parser on
  its bounded window to `Error`;
* `usize` arithmetic in `uncompressed_len` as `Nat` with explicit `% 2 ^ 64`
  (release-mode wrapping semantics).

`Ezip`'s `Vec<EzipNode>` node vector is modelled as a bespoke list type
mutually inductive with `EzipNode`, so that all recursion is structural and
every definition evaluates by kernel reduction.
-/

namespace Explosives

/-- nom's `Needed` (how much more input an incomplete parse wants). -/
inductive Needed where
  | unknown : Needed
  | size : Nat → Needed
deriving DecidableEq, Repr

/-- nom's streaming `IResult`: `Done (remaining input) value`, a parse error,
or an incomplete parse. Error kinds are collapsed. -/
inductive IResult (α : Type) where
  | done : List Nat → α → IResult α
  | error : IResult α
  | incomplete : Needed → IResult α
deriving DecidableEq, Repr

/-- nom's `IError`, the error side of `to_full_result`. -/
inductive IError where
  | error : IError
  | incomplete : Needed → IError
deriving DecidableEq, Repr

/-- Sequencing inside a `do_parse!` chain: run the continuation on the
remaining input, propagate `Error` and `Incomplete`. -/
def IResult.bind (r : IResult α) (k : List Nat → α → IResult β) : IResult β :=
  match r with
  | .done rest a => k rest a
  | .error => .error
  | .incomplete n => .incomplete n

/-- nom's `map!`. -/
def IResult.map (f : α → β) (r : IResult α) : IResult β :=
  match r with
  | .done rest a => .done rest (f a)
  | .error => .error
  | .incomplete n => .incomplete n

/-- nom's `IResult::to_full_result`: `Done` yields `Ok` (any unconsumed
input is dropped), `Error` and `Incomplete` yield `Err`. -/
def toFullResult (r : IResult α) : Except IError α :=
  match r with
  | .done _ o => .ok o
  | .error => .error .error
  | .incomplete n => .error (.incomplete n)

/-- Whether the converted result is an error. -/
def isErr (r : Except IError α) : Bool :=
  match r with
  | .ok _ => false
  | .error _ => true

/-! ## Nat classes -/

/-- ASCII decimal digit, nom's `is_digit`. -/
def isDigitNat (b : Nat) : Bool := 48 ≤ b && b ≤ 57

/-- The separator bytes eaten by nom's `ws!` wrapper: `' '`, `\t`, `\r`, `\n`. -/
def isSep (b : Nat) : Bool := b == 32 || b == 9 || b == 13 || b == 10

/-- Rust `char::is_whitespace` restricted to ASCII: U+0009–U+000D and
U+0020 (the bytes `str::trim_right` removes from ASCII text). -/
def isTrimWs (b : Nat) : Bool := b == 32 || (9 ≤ b && b ≤ 13)

/-- Rust `str::trim_right`: remove the maximal run of trailing whitespace. -/
def trim_right (s : List Nat) : List Nat :=
  (s.reverse.dropWhile isTrimWs).reverse

/-- Source line 77: true as long as `x` is not the start of a marker. -/
def not_marker_start (b : Nat) : Bool := b != 40

/-! ## nom primitives -/

/-- nom's `char!(c)`: `Incomplete` on empty input, `Done` if the first byte
matches, `Error` otherwise. -/
def pChar (c : Nat) : List Nat → IResult Nat
  | [] => .incomplete (.size 1)
  | b :: rest => if b = c then .done rest b else .error

/-- nom's `digit`: one or more ASCII digits. `Incomplete` on empty input,
`Error` if the first byte is not a digit, otherwise the maximal digit run. -/
def digit : List Nat → IResult (List Nat)
  | [] => .incomplete .unknown
  | b :: rest =>
    if isDigitNat b then
      .done ((b :: rest).dropWhile isDigitNat) ((b :: rest).takeWhile isDigitNat)
    else .error

/-- The separator eater of `ws!`: discard leading `" \t\r\n"` bytes. -/
def eatSep (s : List Nat) : List Nat := s.dropWhile isSep

/-- Decimal value of a digit run, as `usize::from_str` computes it. -/
def digitsToNat (ds : List Nat) : Nat :=
  ds.foldl (fun a b => a * 10 + (b - 48)) 0

/-- 2^64: one more than `usize::MAX` (64-bit target). -/
def USIZE : Nat := 2 ^ 64

/-- Source lines 69-74, `number`: `ws!(digit)` converted through
`str::from_utf8` and `usize::from_str`; the conversion fails (`Error` via
`map_res!`) when the digit run overflows `usize`. -/
def number (s : List Nat) : IResult Nat :=
  match digit (eatSep s) with
  | .done rest run =>
      if digitsToNat run < USIZE then .done (eatSep rest) (digitsToNat run)
      else .error
  | .error => .error
  | .incomplete n => .incomplete n

/-- nom's `take!(n)` (and `take_str!` composed with a total `from_utf8`):
`Incomplete` when fewer than `n` bytes remain. -/
def take (n : Nat) (s : List Nat) : IResult (List Nat) :=
  if s.length < n then .incomplete (.size n) else .done (s.drop n) (s.take n)

/-! ## The Ezip data model (source lines 8-29) -/

mutual
/-- Source lines 8-11: a node is an uncompressed chunk or a repeated
sub-`Ezip`. -/
inductive EzipNode where
  | Uncompressed : List Nat → EzipNode
  | Compressed : Nat → Ezip → EzipNode
/-- Source lines 27-29: `Ezip { nodes: Vec<EzipNode> }`; the node vector is
modelled as this bespoke list so recursion over the tree is structural. -/
inductive Ezip where
  | nil : Ezip
  | cons : EzipNode → Ezip → Ezip
end

/-- View the node vector as an ordinary list. -/
def Ezip.toList : Ezip → List EzipNode
  | .nil => []
  | .cons n rest => n :: rest.toList

/-- Source line 50: `Ezip::build(nodes)`. -/
def Ezip.build : List EzipNode → Ezip
  | [] => .nil
  | n :: rest => .cons n (Ezip.build rest)

/-- Source lines 55-59: `Ezip::build_uncompressed(data)` — one verbatim
uncompressed node, no trimming. -/
def Ezip.build_uncompressed (data : List Nat) : Ezip :=
  .cons (.Uncompressed data) .nil

mutual
/-- Source lines 15-22: node length; `repeat * children.uncompressed_len()`
in wrapping 64-bit `usize` arithmetic. -/
def EzipNode.uncompressed_len : EzipNode → Nat
  | .Uncompressed s => s.length
  | .Compressed rep children => (rep * children.uncompressed_len) % USIZE
/-- Source lines 45-47: sum of the node lengths (each `usize` addition
wraps; modular addition is associative, so the fold direction is
irrelevant to the value). -/
def Ezip.uncompressed_len : Ezip → Nat
  | .nil => 0
  | .cons n rest => (n.uncompressed_len + rest.uncompressed_len) % USIZE
end

mutual
/-- Exact (unbounded integer) node length, for comparison with the
wrapping `usize` computation. -/
def EzipNode.exactLen : EzipNode → Nat
  | .Uncompressed s => s.length
  | .Compressed rep children => rep * children.exactLen
/-- Exact (unbounded integer) document length. -/
def Ezip.exactLen : Ezip → Nat
  | .nil => 0
  | .cons n rest => n.exactLen + rest.exactLen
end

mutual
/-- Every product `repeat * body length` and every partial sum in the
evaluation of this node stays below `2^64`. -/
def EzipNode.fitsU : EzipNode → Bool
  | .Uncompressed _ => true
  | .Compressed rep children =>
      children.fitsU && decide (rep * children.exactLen < USIZE)
/-- Every intermediate value in the evaluation of this document stays
below `2^64`. -/
def Ezip.fitsU : Ezip → Bool
  | .nil => true
  | .cons n rest =>
      n.fitsU && rest.fitsU && decide (n.exactLen + rest.exactLen < USIZE)
end

/-- The structural invariant of flat-mode parsing: a `Compressed` node's
body is exactly one `Uncompressed` node. -/
def flatRepeatBody : EzipNode → Prop
  | .Uncompressed _ => True
  | .Compressed _ ch => ∃ d, ch = Ezip.build_uncompressed d

mutual
/-- No literal stored in this node (at any depth) carries trailing
whitespace. -/
def EzipNode.trimmed : EzipNode → Prop
  | .Uncompressed d => trim_right d = d
  | .Compressed _ children => children.trimmed
/-- No literal stored anywhere in this document carries trailing
whitespace. -/
def Ezip.trimmed : Ezip → Prop
  | .nil => True
  | .cons n rest => n.trimmed ∧ rest.trimmed
end

/-! ## The parsers (source lines 62-139) -/

/-- Source lines 82-87, `uncompressed`: take the maximal run of bytes that
do not start a marker (possibly empty — `take_while!` never fails), trim
its trailing whitespace and store it as an `Uncompressed` node. -/
def uncompressed (s : List Nat) : IResult EzipNode :=
  .done (s.dropWhile not_marker_start)
    (.Uncompressed (trim_right (s.takeWhile not_marker_start)))

/-- Source lines 90-95, `marker`: `'(' number 'x' number ')'` returning
`(length, repeat)`. -/
def marker (s : List Nat) : IResult (Nat × Nat) :=
  (pChar 40 s).bind fun s1 _ =>
    (number s1).bind fun s2 len =>
      (pChar 120 s2).bind fun s3 _ =>
        (number s3).bind fun s4 rep =>
          (pChar 41 s4).bind fun s5 _ =>
            .done s5 (len, rep)

/-- Source lines 98-103, `marker_len`: same shape as `marker`, keeping only
the data length. -/
def marker_len (s : List Nat) : IResult Nat :=
  (pChar 40 s).bind fun s1 _ =>
    (number s1).bind fun s2 len =>
      (pChar 120 s2).bind fun s3 _ =>
        (number s3).bind fun s4 _ =>
          (pChar 41 s4).bind fun s5 _ =>
            .done s5 len

/-- Source lines 106-112, `compressed_v1`: a marker followed by exactly
`len` verbatim bytes (`take_str!`) wrapped through `build_uncompressed`. -/
def compressed_v1 (s : List Nat) : IResult EzipNode :=
  (marker s).bind fun rest mk =>
    (take mk.1 rest).bind fun rest2 data =>
      .done rest2 (.Compressed mk.2 (Ezip.build_uncompressed data))

/-- nom's `alt!(compressed | uncompressed)`: try the compressed branch; on
`Error` fall through to `uncompressed`; `Done` and `Incomplete` are
returned as they are. -/
def altNode (comp : List Nat → IResult EzipNode) (s : List Nat) :
    IResult EzipNode :=
  match comp s with
  | .error => uncompressed s
  | r => r

/-- The iteration loop of nom's `many1!` after a first successful parse:
stop (keeping the nodes parsed so far) at end of input, on `Error`, or when
an iteration consumes nothing; propagate `Incomplete`.  The fuel argument
only bounds the number of iterations; since every continued iteration
strictly consumes input, a fuel of the input length never runs out. -/
def many1Go (p : List Nat → IResult α) : Nat → List Nat → IResult (List α)
  | 0, input => .done input []
  | fuel + 1, input =>
    if input.length = 0 then .done input []
    else
      match p input with
      | .error => .done input []
      | .incomplete n => .incomplete n
      | .done i o =>
        if i.length = input.length then .done input []
        else
          match many1Go p fuel i with
          | .done r l => .done r (o :: l)
          | .incomplete n => .incomplete n
          | .error => .error

/-- nom's `many1!`: at least one application; the first application's
`Error` or `Incomplete` is the overall result, then iterate with
`many1Go`. -/
def many1 (p : List Nat → IResult α) (s : List Nat) : IResult (List α) :=
  match p s with
  | .error => .error
  | .incomplete n => .incomplete n
  | .done i1 o1 =>
    if i1.length = 0 then .done i1 [o1]
    else
      match many1Go p i1.length i1 with
      | .done r l => .done r (o1 :: l)
      | .incomplete n => .incomplete n
      | .error => .error

/-- Source lines 115-121, `compressed_v2`: `peek!` the marker, then
`length_value!(marker_len, nodes_v2)`: `marker_len` consumes the header,
the next `len` bytes form a bounded window handed to the recursive node
parser, and an `Incomplete` of that sub-parse on its window becomes an
`Error`.  The fuel bounds the marker-nesting depth; each recursive window
is strictly shorter than its enclosing input, so the fuel
`input length + 1` used by `parse_v2` never runs out. -/
def compressed_v2 : Nat → List Nat → IResult EzipNode
  | 0, _ => .error
  | fuel + 1, s =>
    (marker s).bind fun _ mk =>
      match marker_len s with
      | .done i len =>
        if i.length < len then .incomplete (.size len)
        else
          match many1 (altNode (compressed_v2 fuel)) (i.take len) with
          | .done _ l => .done (i.drop len) (.Compressed mk.2 (Ezip.build l))
          | .incomplete _ => .error
          | .error => .error
      | .error => .error
      | .incomplete n => .incomplete n

/-- Source line 124, `nodes_v1`: `many1!(alt!(compressed_v1 | uncompressed))`. -/
def nodes_v1 (s : List Nat) : IResult (List EzipNode) :=
  many1 (altNode compressed_v1) s

/-- Source line 125, `nodes_v2`, at a given nesting-depth fuel. -/
def nodes_v2 (fuel : Nat) (s : List Nat) : IResult (List EzipNode) :=
  many1 (altNode (compressed_v2 fuel)) s

/-- Source lines 34-36 with 128 and 132: parse a version-1 file. -/
def Ezip.parse_v1 (s : List Nat) : Except IError Ezip :=
  toFullResult ((nodes_v1 s).map Ezip.build)

/-- Source lines 40-42 with 129 and 137: parse a version-2 file. -/
def Ezip.parse_v2 (s : List Nat) : Except IError Ezip :=
  toFullResult ((nodes_v2 (s.length + 1) s).map Ezip.build)

/-- Decompressed length of a parse result, when it succeeded. -/
def lenOf (r : Except IError Ezip) : Except IError Nat :=
  r.map Ezip.uncompressed_len

/-! ## List helpers -/

theorem takeWhile_append_break {p : Nat → Bool} {pre t : List Nat} {x : Nat}
    (hpre : ∀ b ∈ pre, p b = true) (hx : p x = false) :
    (pre ++ x :: t).takeWhile p = pre := by
  induction pre with
  | nil => simp [List.takeWhile_cons, hx]
  | cons b tl ih =>
      have hb : p b = true := hpre b (by simp)
      simp only [List.cons_append, List.takeWhile_cons, hb, if_true]
      rw [ih fun c hc => hpre c (by simp [hc])]

theorem dropWhile_append_break {p : Nat → Bool} {pre t : List Nat} {x : Nat}
    (hpre : ∀ b ∈ pre, p b = true) (hx : p x = false) :
    (pre ++ x :: t).dropWhile p = x :: t := by
  induction pre with
  | nil => simp [List.dropWhile_cons, hx]
  | cons b tl ih =>
      have hb : p b = true := hpre b (by simp)
      simp only [List.cons_append, List.dropWhile_cons, hb, if_true]
      exact ih fun c hc => hpre c (by simp [hc])

theorem dropWhile_self_idem {p : Nat → Bool} {l : List Nat} :
    (l.dropWhile p).dropWhile p = l.dropWhile p := by
  induction l with
  | nil => rfl
  | cons b t ih =>
      by_cases h : p b = true
      · simp [List.dropWhile_cons, h, ih]
      · simp only [Bool.not_eq_true] at h
        simp [List.dropWhile_cons, h]

theorem trim_right_idem (s : List Nat) : trim_right (trim_right s) = trim_right s := by
  unfold trim_right
  rw [List.reverse_reverse, dropWhile_self_idem]

theorem trim_right_length (s : List Nat) :
    (trim_right s).length = s.length - (s.reverse.takeWhile isTrimWs).length := by
  have h : (s.reverse.takeWhile isTrimWs).length + (s.reverse.dropWhile isTrimWs).length
      = s.length := by
    rw [← List.length_append, List.takeWhile_append_dropWhile, List.length_reverse]
  have hg : (trim_right s).length = (s.reverse.dropWhile isTrimWs).length := by
    simp [trim_right]
  rw [hg]
  omega

theorem trim_right_length_le (s : List Nat) : (trim_right s).length ≤ s.length := by
  have h := trim_right_length s
  omega

/-! ## Nat-class facts -/

theorem not_sep_of_digit {b : Nat} (h : isDigitNat b = true) : isSep b = false := by
  simp only [isDigitNat, Bool.and_eq_true, decide_eq_true_eq] at h
  simp only [isSep, Bool.or_eq_false_iff, beq_eq_false_iff_ne, ne_eq]
  omega

/-! ## Primitive parser characterizations -/

theorem pChar_same (c : Nat) (r : List Nat) : pChar c (c :: r) = .done r c := by
  simp [pChar]

theorem pChar_diff {b c : Nat} (h : b ≠ c) (r : List Nat) : pChar c (b :: r) = .error := by
  simp [pChar, h]

theorem eatSep_cons_of_not {b : Nat} {t : List Nat} (h : isSep b = false) :
    eatSep (b :: t) = b :: t := by
  simp [eatSep, List.dropWhile_cons, h]

theorem digit_app {ds t : List Nat} {x : Nat} (hne : ds ≠ [])
    (hds : ∀ b ∈ ds, isDigitNat b = true) (hx : isDigitNat x = false) :
    digit (ds ++ x :: t) = .done (x :: t) ds := by
  obtain ⟨b, tl, rfl⟩ := List.exists_cons_of_ne_nil hne
  have hb : isDigitNat b = true := hds b (by simp)
  show digit (b :: (tl ++ x :: t)) = _
  rw [digit, if_pos hb]
  rw [show b :: (tl ++ x :: t) = (b :: tl) ++ x :: t from rfl]
  rw [takeWhile_append_break hds hx, dropWhile_append_break hds hx]

theorem digit_all {ds : List Nat} (hne : ds ≠ [])
    (hds : ∀ b ∈ ds, isDigitNat b = true) :
    digit ds = .done [] ds := by
  obtain ⟨b, tl, rfl⟩ := List.exists_cons_of_ne_nil hne
  have hb : isDigitNat b = true := hds b (by simp)
  rw [digit, if_pos hb]
  rw [List.takeWhile_eq_self_iff.mpr hds, List.dropWhile_eq_nil_iff.mpr hds]

theorem number_app {ds t : List Nat} {x : Nat} (hne : ds ≠ [])
    (hds : ∀ b ∈ ds, isDigitNat b = true)
    (hlt : digitsToNat ds < USIZE) (hxd : isDigitNat x = false)
    (hxs : isSep x = false) :
    number (ds ++ x :: t) = .done (x :: t) (digitsToNat ds) := by
  obtain ⟨b, tl, hcons⟩ := List.exists_cons_of_ne_nil hne
  have hb : isDigitNat b = true := hds b (by rw [hcons]; simp)
  have heat : eatSep (ds ++ x :: t) = ds ++ x :: t := by
    rw [hcons]; exact eatSep_cons_of_not (not_sep_of_digit hb)
  rw [number, heat, digit_app hne hds hxd]
  simp [hlt, eatSep_cons_of_not hxs]

theorem number_eof {ds : List Nat} (hne : ds ≠ [])
    (hds : ∀ b ∈ ds, isDigitNat b = true) (hlt : digitsToNat ds < USIZE) :
    number ds = .done [] (digitsToNat ds) := by
  obtain ⟨b, tl, hcons⟩ := List.exists_cons_of_ne_nil hne
  have hb : isDigitNat b = true := hds b (by rw [hcons]; simp)
  have heat : eatSep ds = ds := by
    rw [hcons]; exact eatSep_cons_of_not (not_sep_of_digit hb)
  rw [number, heat, digit_all hne hds]
  simp [hlt, eatSep]

/-- A digit run whose value does not fit in `usize`: `usize::from_str`
overflows and `map_res!` turns the header parse into a hard `Error`. -/
theorem number_eof_overflow {ds : List Nat} (hne : ds ≠ [])
    (hds : ∀ b ∈ ds, isDigitNat b = true) (hge : USIZE ≤ digitsToNat ds) :
    number ds = .error := by
  obtain ⟨b, tl, hcons⟩ := List.exists_cons_of_ne_nil hne
  have hb : isDigitNat b = true := hds b (by rw [hcons]; simp)
  have heat : eatSep ds = ds := by
    rw [hcons]; exact eatSep_cons_of_not (not_sep_of_digit hb)
  rw [number, heat, digit_all hne hds]
  simp [Nat.not_lt.mpr hge]

/-! ## Marker characterizations -/

theorem marker_app {dsL dsR t : List Nat} (hLne : dsL ≠ [])
    (hLd : ∀ b ∈ dsL, isDigitNat b = true) (hLlt : digitsToNat dsL < USIZE)
    (hRne : dsR ≠ []) (hRd : ∀ b ∈ dsR, isDigitNat b = true)
    (hRlt : digitsToNat dsR < USIZE) :
    marker (40 :: (dsL ++ 120 :: (dsR ++ 41 :: t))) =
      .done t (digitsToNat dsL, digitsToNat dsR) := by
  rw [marker, pChar_same]
  simp only [IResult.bind]
  rw [number_app hLne hLd hLlt (by decide) (by decide)]
  simp only [IResult.bind]
  rw [pChar_same]
  simp only [IResult.bind]
  rw [number_app hRne hRd hRlt (by decide) (by decide)]
  simp only [IResult.bind]
  rw [pChar_same]

theorem marker_len_app {dsL dsR t : List Nat} (hLne : dsL ≠ [])
    (hLd : ∀ b ∈ dsL, isDigitNat b = true) (hLlt : digitsToNat dsL < USIZE)
    (hRne : dsR ≠ []) (hRd : ∀ b ∈ dsR, isDigitNat b = true)
    (hRlt : digitsToNat dsR < USIZE) :
    marker_len (40 :: (dsL ++ 120 :: (dsR ++ 41 :: t))) = .done t (digitsToNat dsL) := by
  rw [marker_len, pChar_same]
  simp only [IResult.bind]
  rw [number_app hLne hLd hLlt (by decide) (by decide)]
  simp only [IResult.bind]
  rw [pChar_same]
  simp only [IResult.bind]
  rw [number_app hRne hRd hRlt (by decide) (by decide)]
  simp only [IResult.bind]
  rw [pChar_same]

/-- A marker opener followed only by digits up to the end of the input:
the `x` separator is missing, the header parse is incomplete. -/
theorem marker_missing_x {ds : List Nat} (hne : ds ≠ [])
    (hds : ∀ b ∈ ds, isDigitNat b = true) (hlt : digitsToNat ds < USIZE) :
    marker (40 :: ds) = .incomplete (.size 1) := by
  rw [marker, pChar_same]
  simp only [IResult.bind]
  rw [number_eof hne hds hlt]
  rfl

/-- A full `digits x digits` header whose closing `)` is cut off by the end
of the input: the header parse is incomplete. -/
theorem marker_missing_close {dsL dsR : List Nat} (hLne : dsL ≠ [])
    (hLd : ∀ b ∈ dsL, isDigitNat b = true) (hLlt : digitsToNat dsL < USIZE)
    (hRne : dsR ≠ []) (hRd : ∀ b ∈ dsR, isDigitNat b = true)
    (hRlt : digitsToNat dsR < USIZE) :
    marker (40 :: (dsL ++ 120 :: dsR)) = .incomplete (.size 1) := by
  rw [marker, pChar_same]
  simp only [IResult.bind]
  rw [number_app hLne hLd hLlt (by decide) (by decide)]
  simp only [IResult.bind]
  rw [pChar_same]
  simp only [IResult.bind]
  rw [number_eof hRne hRd hRlt]
  rfl

theorem marker_head_not40 {b : Nat} {t : List Nat} (h : b ≠ 40) :
    marker (b :: t) = .error := by
  rw [marker, pChar_diff h]
  rfl

/-- An opener followed only by a digit run that overflows `usize`: the
header parse fails with a hard `Error` (from `map_res!`), not an
`Incomplete`. -/
theorem marker_overflow_x {ds : List Nat} (hne : ds ≠ [])
    (hds : ∀ b ∈ ds, isDigitNat b = true) (hge : USIZE ≤ digitsToNat ds) :
    marker (40 :: ds) = .error := by
  rw [marker, pChar_same]
  simp only [IResult.bind]
  rw [number_eof_overflow hne hds hge]

/-! ## Compressed-node parser characterizations -/

theorem compressed_v1_of_marker_error {s : List Nat} (hm : marker s = .error) :
    compressed_v1 s = .error := by
  rw [compressed_v1, hm]
  rfl

theorem compressed_v1_of_marker_incomplete {s : List Nat} {n : Needed}
    (hm : marker s = .incomplete n) : compressed_v1 s = .incomplete n := by
  rw [compressed_v1, hm]
  rfl

theorem compressed_v1_short {s rest : List Nat} {len rep : Nat}
    (hm : marker s = .done rest (len, rep)) (hshort : rest.length < len) :
    compressed_v1 s = .incomplete (.size len) := by
  rw [compressed_v1, hm]
  simp only [IResult.bind, take, if_pos hshort]

theorem compressed_v1_shape {s r : List Nat} {n : EzipNode}
    (h : compressed_v1 s = .done r n) :
    ∃ rest len rep, marker s = .done rest (len, rep) ∧ len ≤ rest.length ∧
      n = .Compressed rep (Ezip.build_uncompressed (rest.take len)) ∧
      r = rest.drop len := by
  rw [compressed_v1] at h
  cases hm : marker s with
  | done rest mk =>
      obtain ⟨len, rep⟩ := mk
      rw [hm] at h
      simp only [IResult.bind, take] at h
      by_cases hlt : rest.length < len
      · rw [if_pos hlt] at h
        exact absurd h (by simp)
      · rw [if_neg hlt] at h
        injection h with h1 h2
        exact ⟨rest, len, rep, rfl, Nat.le_of_not_lt hlt, h2.symm, h1.symm⟩
  | error => rw [hm] at h; exact absurd h (by simp [IResult.bind])
  | incomplete m => rw [hm] at h; exact absurd h (by simp [IResult.bind])

theorem compressed_v2_succ_of_marker_error {f : Nat} {s : List Nat}
    (hm : marker s = .error) : compressed_v2 (f + 1) s = .error := by
  simp only [compressed_v2, hm, IResult.bind]

theorem compressed_v2_succ_of_marker_incomplete {f : Nat} {s : List Nat} {n : Needed}
    (hm : marker s = .incomplete n) : compressed_v2 (f + 1) s = .incomplete n := by
  simp only [compressed_v2, hm, IResult.bind]

theorem compressed_v2_succ_short {f : Nat} {s rm i : List Nat} {mk : Nat × Nat} {len : Nat}
    (hm : marker s = .done rm mk) (hml : marker_len s = .done i len)
    (hshort : i.length < len) : compressed_v2 (f + 1) s = .incomplete (.size len) := by
  simp only [compressed_v2, hm, IResult.bind, hml, if_pos hshort]

/-! ## alt and uncompressed characterizations -/

theorem altNode_done {comp : List Nat → IResult EzipNode} {s r : List Nat} {n : EzipNode}
    (h : comp s = .done r n) : altNode comp s = .done r n := by
  simp [altNode, h]

theorem altNode_incomplete {comp : List Nat → IResult EzipNode} {s : List Nat} {n : Needed}
    (h : comp s = .incomplete n) : altNode comp s = .incomplete n := by
  simp [altNode, h]

theorem altNode_error {comp : List Nat → IResult EzipNode} {s : List Nat}
    (h : comp s = .error) : altNode comp s = uncompressed s := by
  simp [altNode, h]

theorem uncompressed_no_marker {s : List Nat} (h : ∀ b ∈ s, not_marker_start b = true) :
    uncompressed s = .done [] (.Uncompressed (trim_right s)) := by
  rw [uncompressed, List.takeWhile_eq_self_iff.mpr h, List.dropWhile_eq_nil_iff.mpr h]

theorem uncompressed_before_marker {pre t : List Nat}
    (h : ∀ b ∈ pre, not_marker_start b = true) :
    uncompressed (pre ++ 40 :: t) = .done (40 :: t) (.Uncompressed (trim_right pre)) := by
  rw [uncompressed, takeWhile_append_break h (by decide),
    dropWhile_append_break h (by decide)]

/-- Directly at a marker opener the literal-run parser matches zero bytes
and succeeds with an empty (trimmed) literal, consuming nothing. -/
theorem uncompressed_at_marker (t : List Nat) :
    uncompressed (40 :: t) = .done (40 :: t) (.Uncompressed []) := rfl

/-! ## many1 characterizations -/

theorem many1_first_incomplete {α} {p : List Nat → IResult α} {s : List Nat} {n : Needed}
    (h : p s = .incomplete n) : many1 p s = .incomplete n := by
  simp only [many1, h]

theorem many1_first_error {α} {p : List Nat → IResult α} {s : List Nat}
    (h : p s = .error) : many1 p s = .error := by
  simp only [many1, h]

theorem many1_single {α} {p : List Nat → IResult α} {s : List Nat} {o : α}
    (h : p s = .done [] o) : many1 p s = .done [] [o] := by
  simp [many1, h]

theorem many1_second_incomplete {α} {p : List Nat → IResult α} {s i : List Nat} {o : α}
    {m : Needed} (h1 : p s = .done i o) (hne : i ≠ []) (h2 : p i = .incomplete m) :
    many1 p s = .incomplete m := by
  have hlen : i.length ≠ 0 := by simpa [List.length_eq_zero] using hne
  obtain ⟨k, hk⟩ := Nat.exists_eq_succ_of_ne_zero hlen
  simp only [many1, h1]
  rw [if_neg hlen, hk]
  simp only [many1Go]
  rw [if_neg hlen, h2]

/-- nom's `many1!` when the single application succeeds without consuming
anything on a nonempty input: the first result is accepted and the loop
stops at the zero-consumption check, so the parse succeeds with that one
node and the whole input left over. -/
theorem many1_no_progress {α} {p : List Nat → IResult α} {s : List Nat} {o : α}
    (h : p s = .done s o) (hne : s ≠ []) : many1 p s = .done s [o] := by
  have hlen : s.length ≠ 0 := by simpa [List.length_eq_zero] using hne
  obtain ⟨k, hk⟩ := Nat.exists_eq_succ_of_ne_zero hlen
  simp only [many1, h]
  rw [if_neg hlen, hk]
  simp only [many1Go]
  rw [if_neg hlen, h]
  simp

/-! ## Membership through many1 -/

theorem many1Go_all {α} {p : List Nat → IResult α} {Q : α → Prop}
    (hp : ∀ s r n, p s = .done r n → Q n) :
    ∀ fuel input r l, many1Go p fuel input = .done r l → ∀ n ∈ l, Q n := by
  intro fuel
  induction fuel with
  | zero =>
      intro input r l h n hn
      simp only [many1Go] at h
      injection h with h1 h2
      subst h2
      cases hn
  | succ f ih =>
      intro input r l h n hn
      by_cases h0 : input.length = 0
      · simp only [many1Go, if_pos h0] at h
        injection h with h1 h2; subst h2; cases hn
      · cases hpi : p input with
        | error =>
            simp only [many1Go, if_neg h0, hpi] at h
            injection h with h1 h2; subst h2; cases hn
        | incomplete m =>
            simp only [many1Go, if_neg h0, hpi] at h
            exact absurd h (by simp)
        | done i o =>
            by_cases hlen : i.length = input.length
            · simp only [many1Go, if_neg h0, hpi, if_pos hlen] at h
              injection h with h1 h2; subst h2; cases hn
            · cases hgo : many1Go p f i with
              | done r2 l2 =>
                  simp only [many1Go, if_neg h0, hpi, if_neg hlen, hgo] at h
                  injection h with h1 h2
                  subst h2
                  rcases List.mem_cons.mp hn with rfl | hn2
                  · exact hp _ _ _ hpi
                  · exact ih i r2 l2 hgo n hn2
              | incomplete m =>
                  simp only [many1Go, if_neg h0, hpi, if_neg hlen, hgo] at h
                  exact absurd h (by simp)
              | error =>
                  simp only [many1Go, if_neg h0, hpi, if_neg hlen, hgo] at h
                  exact absurd h (by simp)

theorem many1_all {α} {p : List Nat → IResult α} {Q : α → Prop}
    (hp : ∀ s r n, p s = .done r n → Q n) {s r : List Nat} {l : List α}
    (h : many1 p s = .done r l) : ∀ n ∈ l, Q n := by
  cases hps : p s with
  | error => simp only [many1, hps] at h; exact absurd h (by simp)
  | incomplete m => simp only [many1, hps] at h; exact absurd h (by simp)
  | done i1 o1 =>
      by_cases h0 : i1.length = 0
      · simp only [many1, hps, if_pos h0] at h
        injection h with h1 h2; subst h2
        intro n hn
        rw [List.mem_singleton.mp hn]
        exact hp _ _ _ hps
      · cases hgo : many1Go p i1.length i1 with
        | done r2 l2 =>
            simp only [many1, hps, if_neg h0, hgo] at h
            injection h with h1 h2; subst h2
            intro n hn
            rcases List.mem_cons.mp hn with rfl | hn2
            · exact hp _ _ _ hps
            · exact many1Go_all hp _ _ _ _ hgo n hn2
        | incomplete m =>
            simp only [many1, hps, if_neg h0, hgo] at h
            exact absurd h (by simp)
        | error =>
            simp only [many1, hps, if_neg h0, hgo] at h
            exact absurd h (by simp)

/-! ## Document predicates and parse-result elimination -/

theorem build_toList (l : List EzipNode) : (Ezip.build l).toList = l := by
  induction l with
  | nil => rfl
  | cons n rest ih => simp [Ezip.build, Ezip.toList, ih]

theorem build_trimmed {l : List EzipNode} (h : ∀ n ∈ l, n.trimmed) :
    (Ezip.build l).trimmed := by
  induction l with
  | nil => trivial
  | cons n rest ih =>
      refine ⟨h n (by simp), ih fun m hm => h m (by simp [hm])⟩

theorem uncompressed_trimmed {s r : List Nat} {n : EzipNode}
    (h : uncompressed s = .done r n) : n.trimmed := by
  rw [uncompressed] at h
  injection h with h1 h2
  rw [← h2]
  show trim_right (trim_right _) = trim_right _
  exact trim_right_idem _

theorem altNode_all {comp : List Nat → IResult EzipNode} {Q : EzipNode → Prop}
    (hc : ∀ s r n, comp s = .done r n → Q n)
    (hu : ∀ s r n, uncompressed s = .done r n → Q n) :
    ∀ s r n, altNode comp s = .done r n → Q n := by
  intro s r n h
  cases hcs : comp s with
  | done r2 n2 =>
      rw [altNode_done hcs] at h
      injection h with h1 h2
      exact h2 ▸ hc _ _ _ hcs
  | error =>
      rw [altNode_error hcs] at h
      exact hu _ _ _ h
  | incomplete m =>
      rw [altNode_incomplete hcs] at h
      exact absurd h (by simp)

theorem parse_v1_of_nodes_done {s r : List Nat} {l : List EzipNode}
    (h : nodes_v1 s = .done r l) : Ezip.parse_v1 s = .ok (Ezip.build l) := by
  simp [Ezip.parse_v1, h, IResult.map, toFullResult]

theorem parse_v1_of_nodes_incomplete {s : List Nat} {n : Needed}
    (h : nodes_v1 s = .incomplete n) : Ezip.parse_v1 s = .error (.incomplete n) := by
  simp [Ezip.parse_v1, h, IResult.map, toFullResult]

theorem parse_v2_of_nodes_done {s r : List Nat} {l : List EzipNode}
    (h : nodes_v2 (s.length + 1) s = .done r l) :
    Ezip.parse_v2 s = .ok (Ezip.build l) := by
  simp [Ezip.parse_v2, h, IResult.map, toFullResult]

theorem parse_v2_of_nodes_incomplete {s : List Nat} {n : Needed}
    (h : nodes_v2 (s.length + 1) s = .incomplete n) :
    Ezip.parse_v2 s = .error (.incomplete n) := by
  simp [Ezip.parse_v2, h, IResult.map, toFullResult]

theorem parse_v1_ok_elim {s : List Nat} {doc : Ezip} (h : Ezip.parse_v1 s = .ok doc) :
    ∃ r l, nodes_v1 s = .done r l ∧ doc = Ezip.build l := by
  cases hn : nodes_v1 s with
  | done r l =>
      refine ⟨r, l, rfl, ?_⟩
      rw [parse_v1_of_nodes_done hn] at h
      injection h with h1
      exact h1.symm
  | error => simp [Ezip.parse_v1, hn, IResult.map, toFullResult] at h
  | incomplete m => simp [Ezip.parse_v1, hn, IResult.map, toFullResult] at h

theorem parse_v2_ok_elim {s : List Nat} {doc : Ezip} (h : Ezip.parse_v2 s = .ok doc) :
    ∃ r l, nodes_v2 (s.length + 1) s = .done r l ∧ doc = Ezip.build l := by
  cases hn : nodes_v2 (s.length + 1) s with
  | done r l =>
      refine ⟨r, l, rfl, ?_⟩
      rw [parse_v2_of_nodes_done hn] at h
      injection h with h1
      exact h1.symm
  | error => simp [Ezip.parse_v2, hn, IResult.map, toFullResult] at h
  | incomplete m => simp [Ezip.parse_v2, hn, IResult.map, toFullResult] at h

/-- Every node produced by the recursive-mode compressed parser, at any
fuel, stores only trimmed literals: its sub-documents are parsed with the
same `uncompressed` combinator that trims every literal run. -/
theorem compressed_v2_trimmed :
    ∀ fuel (s r : List Nat) (n : EzipNode), compressed_v2 fuel s = .done r n → n.trimmed := by
  intro fuel
  induction fuel with
  | zero =>
      intro s r n h
      exact absurd h (by simp [compressed_v2])
  | succ f ih =>
      intro s r n h
      cases hm : marker s with
      | error => simp [compressed_v2, hm, IResult.bind] at h
      | incomplete m => simp [compressed_v2, hm, IResult.bind] at h
      | done rm mk =>
          cases hml : marker_len s with
          | error => simp [compressed_v2, hm, IResult.bind, hml] at h
          | incomplete m => simp [compressed_v2, hm, IResult.bind, hml] at h
          | done i len =>
              by_cases hlt : i.length < len
              · simp [compressed_v2, hm, IResult.bind, hml, if_pos hlt] at h
              · cases hmany : many1 (altNode (compressed_v2 f)) (i.take len) with
                | done r2 l =>
                    simp only [compressed_v2, hm, IResult.bind, hml, if_neg hlt, hmany] at h
                    injection h with h1 h2
                    rw [← h2]
                    show (Ezip.build l).trimmed
                    exact build_trimmed (many1_all
                      (altNode_all (fun s r n hc => ih s r n hc)
                        (fun s r n hu => uncompressed_trimmed hu)) hmany)
                | incomplete m =>
                    simp [compressed_v2, hm, IResult.bind, hml, if_neg hlt, hmany] at h
                | error =>
                    simp [compressed_v2, hm, IResult.bind, hml, if_neg hlt, hmany] at h

/-- Every Document produced by the recursive-mode parser stores only
trimmed literals, at every nesting depth. -/
theorem parse_v2_trimmed {s : List Nat} {doc : Ezip}
    (h : Ezip.parse_v2 s = .ok doc) : doc.trimmed := by
  obtain ⟨r, l, hn, rfl⟩ := parse_v2_ok_elim h
  simp only [nodes_v2] at hn
  exact build_trimmed (many1_all
    (altNode_all (fun s r n hc => compressed_v2_trimmed _ s r n hc)
      (fun s r n hu => uncompressed_trimmed hu)) hn)

mutual
/-- When every product and partial sum fits below `2^64`, the wrapping
`usize` node length agrees with the exact one. -/
theorem node_len_eq_of_fits : ∀ n : EzipNode, n.fitsU = true →
    n.uncompressed_len = n.exactLen
  | .Uncompressed s, _ => rfl
  | .Compressed rep ch, h => by
      have hsplit : ch.fitsU = true ∧ rep * ch.exactLen < USIZE := by
        simpa [EzipNode.fitsU, Bool.and_eq_true, decide_eq_true_eq] using h
      have hch := ezip_len_eq_of_fits ch hsplit.1
      show (rep * ch.uncompressed_len) % USIZE = rep * ch.exactLen
      rw [hch]
      exact Nat.mod_eq_of_lt hsplit.2
/-- When every product and partial sum fits below `2^64`, the wrapping
`usize` document length agrees with the exact one. -/
theorem ezip_len_eq_of_fits : ∀ e : Ezip, e.fitsU = true →
    e.uncompressed_len = e.exactLen
  | .nil, _ => rfl
  | .cons n rest, h => by
      have hsplit : (n.fitsU = true ∧ rest.fitsU = true) ∧
          n.exactLen + rest.exactLen < USIZE := by
        simpa [Ezip.fitsU, Bool.and_eq_true, decide_eq_true_eq] using h
      have h1 := node_len_eq_of_fits n hsplit.1.1
      have h2 := ezip_len_eq_of_fits rest hsplit.1.2
      show (n.uncompressed_len + rest.uncompressed_len) % USIZE = n.exactLen + rest.exactLen
      rw [h1, h2]
      exact Nat.mod_eq_of_lt hsplit.2
end

/-- When the compressed-marker branch reports an incomplete parse on a
suffix beginning at a marker opener, the whole parse fails in both modes,
wherever that opener sits after a literal run: with no prefix the first
`many1!` application propagates the `Incomplete`; after a nonempty literal
run the second application does. -/
theorem parse_both_err_of_opener_incomplete {tt : List Nat} {m : Needed}
    (hc1 : compressed_v1 (40 :: tt) = .incomplete m)
    (hc2 : ∀ f, compressed_v2 (f + 1) (40 :: tt) = .incomplete m) :
    ∀ pre : List Nat, (∀ b ∈ pre, not_marker_start b = true) →
      isErr (Ezip.parse_v1 (pre ++ 40 :: tt)) = true ∧
      isErr (Ezip.parse_v2 (pre ++ 40 :: tt)) = true := by
  intro pre hpre
  cases pre with
  | nil =>
      constructor
      · have hn : nodes_v1 (40 :: tt) = .incomplete m :=
          many1_first_incomplete (altNode_incomplete hc1)
        show isErr (Ezip.parse_v1 (40 :: tt)) = true
        rw [parse_v1_of_nodes_incomplete hn]
        rfl
      · have hn : nodes_v2 ((40 :: tt).length + 1) (40 :: tt) = .incomplete m := by
          simp only [nodes_v2]
          exact many1_first_incomplete (altNode_incomplete (hc2 _))
        show isErr (Ezip.parse_v2 (40 :: tt)) = true
        rw [parse_v2_of_nodes_incomplete hn]
        rfl
  | cons a pre' =>
      have hmkerr : marker ((a :: pre') ++ 40 :: tt) = .error := by
        have ha : a ≠ 40 := by
          have h := hpre a (by simp)
          simpa [not_marker_start] using h
        exact marker_head_not40 ha
      have hu : uncompressed ((a :: pre') ++ 40 :: tt) =
          .done (40 :: tt) (.Uncompressed (trim_right (a :: pre'))) :=
        uncompressed_before_marker hpre
      have hcons_ne : (40 :: tt) ≠ [] := by simp
      constructor
      · have h1 : altNode compressed_v1 ((a :: pre') ++ 40 :: tt) =
            .done (40 :: tt) (.Uncompressed (trim_right (a :: pre'))) := by
          rw [altNode_error (compressed_v1_of_marker_error hmkerr)]
          exact hu
        have hn : nodes_v1 ((a :: pre') ++ 40 :: tt) = .incomplete m :=
          many1_second_incomplete h1 hcons_ne (altNode_incomplete hc1)
        rw [parse_v1_of_nodes_incomplete hn]
        rfl
      · have h1 : altNode (compressed_v2 (((a :: pre') ++ 40 :: tt).length + 1))
            ((a :: pre') ++ 40 :: tt) =
            .done (40 :: tt) (.Uncompressed (trim_right (a :: pre'))) := by
          rw [altNode_error (compressed_v2_succ_of_marker_error hmkerr)]
          exact hu
        have hn : nodes_v2 (((a :: pre') ++ 40 :: tt).length + 1)
            ((a :: pre') ++ 40 :: tt) = .incomplete m := by
          simp only [nodes_v2]
          exact many1_second_incomplete h1 hcons_ne (altNode_incomplete (hc2 _))
        rw [parse_v2_of_nodes_incomplete hn]
        rfl

/-! ## Claim theorems -/

/-- C1: every entry of the recursive-mode scenario table parses with
`parse_v2` and evaluates to the stated decompressed length:
`"(3x3)XYZ"` gives 9, `"X(8x2)(3x3)ABCY"` gives 20,
`"(27x12)(20x12)(13x14)(7x10)(1x12)A"` gives 241920, and
`"(25x3)(3x3)ABC(2x3)XY(5x2)PQRSTX(18x9)(3x2)TWO(5x7)SEVEN"` gives 445. -/
theorem claim1_recursive_mode_table :
    lenOf (Ezip.parse_v2 [40, 51, 120, 51, 41, 88, 89, 90]) = .ok 9 ∧
    lenOf (Ezip.parse_v2
      [88, 40, 56, 120, 50, 41, 40, 51, 120, 51, 41, 65, 66, 67, 89]) = .ok 20 ∧
    lenOf (Ezip.parse_v2
      [40, 50, 55, 120, 49, 50, 41, 40, 50, 48, 120, 49, 50, 41, 40, 49, 51,
       120, 49, 52, 41, 40, 55, 120, 49, 48, 41, 40, 49, 120, 49, 50, 41, 65]) =
      .ok 241920 ∧
    lenOf (Ezip.parse_v2
      [40, 50, 53, 120, 51, 41, 40, 51, 120, 51, 41, 65, 66, 67, 40, 50, 120,
       51, 41, 88, 89, 40, 53, 120, 50, 41, 80, 81, 82, 83, 84, 88, 40, 49,
       56, 120, 57, 41, 40, 51, 120, 50, 41, 84, 87, 79, 40, 53, 120, 55, 41,
       83, 69, 86, 69, 78]) = .ok 445 :=
  ⟨rfl, rfl, rfl, rfl⟩

/-- C2: every entry of the flat-mode scenario table parses with `parse_v1`
and evaluates to the stated decompressed length: `"ADVENT"` gives 6,
`"A(1x5)BC"` gives 7, `"(3x3)XYZ"` gives 9, `"A(2x2)BCD(2x2)EFG"` gives 11,
`"(6x1)(1x3)A"` gives 6, and `"X(8x2)(3x3)ABCY"` gives 18. -/
theorem claim2_flat_mode_table :
    lenOf (Ezip.parse_v1 [65, 68, 86, 69, 78, 84]) = .ok 6 ∧
    lenOf (Ezip.parse_v1 [65, 40, 49, 120, 53, 41, 66, 67]) = .ok 7 ∧
    lenOf (Ezip.parse_v1 [40, 51, 120, 51, 41, 88, 89, 90]) = .ok 9 ∧
    lenOf (Ezip.parse_v1
      [65, 40, 50, 120, 50, 41, 66, 67, 68, 40, 50, 120, 50, 41, 69, 70, 71]) =
      .ok 11 ∧
    lenOf (Ezip.parse_v1 [40, 54, 120, 49, 41, 40, 49, 120, 51, 41, 65]) = .ok 6 ∧
    lenOf (Ezip.parse_v1
      [88, 40, 56, 120, 50, 41, 40, 51, 120, 51, 41, 65, 66, 67, 89]) = .ok 18 :=
  ⟨rfl, rfl, rfl, rfl, rfl, rfl⟩

/-- C3 counterexample: on `"(2x3)A "` (payload `"A "` ends in a space) the
claim demands that the payload whitespace count toward the length in both
modes (3 × 2 = 6).  Flat mode does give 6, but recursive mode re-parses the
payload with the literal-run parser, which trims the space: the stored
literal is `"A"` and the length is 3, not 6.  So recursive mode does trim
literal runs, and marker payload bytes are not preserved in recursive
mode. -/
theorem claim3_counterexample :
    Ezip.parse_v2 [40, 50, 120, 51, 41, 65, 32] =
      .ok (.cons (.Compressed 3 (.cons (.Uncompressed [65]) .nil)) .nil) ∧
    lenOf (Ezip.parse_v2 [40, 50, 120, 51, 41, 65, 32]) = .ok 3 ∧
    lenOf (Ezip.parse_v1 [40, 50, 120, 51, 41, 65, 32]) = .ok 6 :=
  ⟨rfl, rfl, rfl⟩

/-- C3 (amended): trailing-whitespace trimming of literal runs happens in
BOTH modes — the two parsers share the literal-run combinator, so every
literal stored in a recursive-mode Document (at any depth, marker payloads
included) is trimmed; only flat mode takes a marker's payload bytes
verbatim, so payload trailing whitespace counts toward the decompressed
length in flat mode but not in recursive mode. -/
theorem claim3_amended_trimming :
    (∀ (s : List Nat) (doc : Ezip), Ezip.parse_v2 s = .ok doc → doc.trimmed) ∧
    lenOf (Ezip.parse_v1 [40, 50, 120, 51, 41, 65, 32]) = .ok 6 ∧
    lenOf (Ezip.parse_v2 [40, 50, 120, 51, 41, 65, 32]) = .ok 3 :=
  ⟨fun _ _ h => parse_v2_trimmed h, rfl, rfl⟩

/-- C3 witness: the amended theorem applied to the concrete input
`"(2x3)A "`, whose recursive-mode Document is fully trimmed. -/
theorem claim3_witness :
    Ezip.trimmed (.cons (.Compressed 3 (.cons (.Uncompressed [65]) .nil)) .nil) :=
  claim3_amended_trimming.1 [40, 50, 120, 51, 41, 65, 32]
    (.cons (.Compressed 3 (.cons (.Uncompressed [65]) .nil)) .nil) rfl

/-- C4 counterexample: on `"(7x1)(2x0)AB"` both parses succeed, flat mode
gives 7 and recursive mode gives 0, so the claimed inequality
flat ≤ recursive is false (and with it the claimed equivalence). -/
theorem claim4_counterexample :
    lenOf (Ezip.parse_v1 [40, 55, 120, 49, 41, 40, 50, 120, 48, 41, 65, 66]) = .ok 7 ∧
    lenOf (Ezip.parse_v2 [40, 55, 120, 49, 41, 40, 50, 120, 48, 41, 65, 66]) = .ok 0 :=
  ⟨rfl, rfl⟩

/-- C4 (amended): the flat-mode and recursive-mode lengths are incomparable
in general: some well-formed inputs have flat < recursive
(`"X(8x2)(3x3)ABCY"`: 18 < 20) and others have flat > recursive
(`"(7x1)(2x0)AB"`: 7 > 0, the flat payload `"(2x0)AB"` counts 7 characters
while the recursive parse multiplies by the nested repeat 0). -/
theorem claim4_amended_incomparable :
    lenOf (Ezip.parse_v1
      [88, 40, 56, 120, 50, 41, 40, 51, 120, 51, 41, 65, 66, 67, 89]) = .ok 18 ∧
    lenOf (Ezip.parse_v2
      [88, 40, 56, 120, 50, 41, 40, 51, 120, 51, 41, 65, 66, 67, 89]) = .ok 20 ∧
    lenOf (Ezip.parse_v1 [40, 55, 120, 49, 41, 40, 50, 120, 48, 41, 65, 66]) = .ok 7 ∧
    lenOf (Ezip.parse_v2 [40, 55, 120, 49, 41, 40, 50, 120, 48, 41, 65, 66]) = .ok 0 :=
  ⟨rfl, rfl, rfl, rfl⟩

/-- C5 counterexample: `"A "` contains no marker opener; the claim demands
that recursive mode return the full character count 2 ("nothing is
subtracted"), but `parse_v2` trims the trailing space exactly as flat mode
does and returns 1. -/
theorem claim5_counterexample :
    Ezip.parse_v2 [65, 32] = .ok (.cons (.Uncompressed [65]) .nil) ∧
    lenOf (Ezip.parse_v2 [65, 32]) = .ok 1 :=
  ⟨rfl, rfl⟩

/-- C5 (amended): for every nonempty input without a marker opener, both
parsers succeed with a single literal node, and in BOTH modes the
decompressed length is the character count minus the trailing-whitespace
run (the hypothesis `s.length < 2^64` reflects that a Rust slice is no
longer than the address space). -/
theorem claim5_amended_no_marker (s : List Nat) (hne : s ≠ [])
    (hnm : ∀ b ∈ s, not_marker_start b = true) (hlen : s.length < USIZE) :
    Ezip.parse_v1 s = .ok (Ezip.build [.Uncompressed (trim_right s)]) ∧
    Ezip.parse_v2 s = .ok (Ezip.build [.Uncompressed (trim_right s)]) ∧
    lenOf (Ezip.parse_v1 s) = .ok (s.length - (s.reverse.takeWhile isTrimWs).length) ∧
    lenOf (Ezip.parse_v2 s) = .ok (s.length - (s.reverse.takeWhile isTrimWs).length) := by
  obtain ⟨b, t, rfl⟩ := List.exists_cons_of_ne_nil hne
  have hb40 : b ≠ 40 := by
    have hb := hnm b (by simp)
    simpa [not_marker_start] using hb
  have hcomp1 : compressed_v1 (b :: t) = .error :=
    compressed_v1_of_marker_error (marker_head_not40 hb40)
  have halt1 : altNode compressed_v1 (b :: t) =
      .done [] (.Uncompressed (trim_right (b :: t))) := by
    rw [altNode_error hcomp1]
    exact uncompressed_no_marker hnm
  have hn1 : nodes_v1 (b :: t) = .done [] [.Uncompressed (trim_right (b :: t))] :=
    many1_single halt1
  have hcomp2 : compressed_v2 ((b :: t).length + 1) (b :: t) = .error :=
    compressed_v2_succ_of_marker_error (marker_head_not40 hb40)
  have halt2 : altNode (compressed_v2 ((b :: t).length + 1)) (b :: t) =
      .done [] (.Uncompressed (trim_right (b :: t))) := by
    rw [altNode_error hcomp2]
    exact uncompressed_no_marker hnm
  have hn2 : nodes_v2 ((b :: t).length + 1) (b :: t) =
      .done [] [.Uncompressed (trim_right (b :: t))] := by
    simp only [nodes_v2]
    exact many1_single halt2
  have hlt : (trim_right (b :: t)).length < USIZE :=
    lt_of_le_of_lt (trim_right_length_le _) hlen
  have hval : Ezip.uncompressed_len (Ezip.build [.Uncompressed (trim_right (b :: t))]) =
      (b :: t).length - ((b :: t).reverse.takeWhile isTrimWs).length := by
    show ((trim_right (b :: t)).length + Ezip.uncompressed_len .nil) % USIZE = _
    show ((trim_right (b :: t)).length + 0) % USIZE = _
    rw [Nat.add_zero, Nat.mod_eq_of_lt hlt, trim_right_length]
  refine ⟨parse_v1_of_nodes_done hn1, parse_v2_of_nodes_done hn2, ?_, ?_⟩
  · rw [lenOf, parse_v1_of_nodes_done hn1, Except.map, hval]
  · rw [lenOf, parse_v2_of_nodes_done hn2, Except.map, hval]

/-- C5 witness: the amended theorem applied to `"AB "` (length 3, one byte
of trailing whitespace, decompressed length 2 in both modes). -/
theorem claim5_witness :
    Ezip.parse_v1 [65, 66, 32] = .ok (Ezip.build [.Uncompressed (trim_right [65, 66, 32])]) ∧
    Ezip.parse_v2 [65, 66, 32] = .ok (Ezip.build [.Uncompressed (trim_right [65, 66, 32])]) ∧
    lenOf (Ezip.parse_v1 [65, 66, 32]) =
      .ok (([65, 66, 32] : List Nat).length -
        (([65, 66, 32] : List Nat).reverse.takeWhile isTrimWs).length) ∧
    lenOf (Ezip.parse_v2 [65, 66, 32]) =
      .ok (([65, 66, 32] : List Nat).length -
        (([65, 66, 32] : List Nat).reverse.takeWhile isTrimWs).length) :=
  claim5_amended_no_marker [65, 66, 32] (by decide) (by decide) (by decide)

/-- C8 counterexample: on the empty input both parsers fail — `many1!`
demands at least one node and the very first alternative reports an
incomplete parse at end of input — so the claimed success with length 0 is
false. -/
theorem claim8_counterexample :
    isErr (Ezip.parse_v1 []) = true ∧ isErr (Ezip.parse_v2 []) = true :=
  ⟨rfl, rfl⟩

/-- C8 (amended): on the empty input both `parse_v1` and `parse_v2` return
an error (nom's streaming `char!` wants at least one more byte and the
resulting `Incomplete` is fatal through `to_full_result`); no Document and
no length 0 are produced. -/
theorem claim8_amended_empty :
    Ezip.parse_v1 [] = .error (.incomplete (.size 1)) ∧
    Ezip.parse_v2 [] = .error (.incomplete (.size 1)) :=
  ⟨rfl, rfl⟩

/-- C6 counterexample: `"(1x2)("` contains a marker opener (its final byte)
that is not followed by any header before the end of the input, yet
`parse_v1` succeeds with length 2: the dangling opener was consumed
verbatim as the preceding marker's payload, so the claimed parse error does
not occur. -/
theorem claim6_counterexample :
    Ezip.parse_v1 [40, 49, 120, 50, 41, 40] =
      .ok (.cons (.Compressed 2 (.cons (.Uncompressed [40]) .nil)) .nil) ∧
    lenOf (Ezip.parse_v1 [40, 49, 120, 50, 41, 40]) = .ok 2 :=
  ⟨rfl, rfl⟩

/-- C6 (amended): a marker opener whose header is cut off by the end of
the input is a fatal parse error in both modes, wherever the opener sits
after a literal run: an opener followed only by digits whose value fits in
`usize` (missing `x` separator and closer), and a `digits x digits` header
with `usize`-sized fields missing its `)`, both make `parse_v1` and
`parse_v2` fail.  The `usize` bound is essential: when the digit run after
the opener overflows `usize`, `usize::from_str` fails and the header parse
aborts with a hard `Error` instead of an `Incomplete`, the literal-run
alternative matches zero bytes, and the parser stops instead of failing —
on an input that is exactly an opener followed by an overflowing digit run,
both parsers return Ok with a single empty literal (length 0).  (An opener
hidden inside a flat-mode payload is not parsed as a marker at all, see the
counterexample.) -/
theorem claim6_amended_malformed :
    (∀ pre ds : List Nat, (∀ b ∈ pre, not_marker_start b = true) → ds ≠ [] →
      (∀ b ∈ ds, isDigitNat b = true) → digitsToNat ds < USIZE →
      isErr (Ezip.parse_v1 (pre ++ 40 :: ds)) = true ∧
      isErr (Ezip.parse_v2 (pre ++ 40 :: ds)) = true) ∧
    (∀ pre dsL dsR : List Nat, (∀ b ∈ pre, not_marker_start b = true) →
      dsL ≠ [] → (∀ b ∈ dsL, isDigitNat b = true) → digitsToNat dsL < USIZE →
      dsR ≠ [] → (∀ b ∈ dsR, isDigitNat b = true) → digitsToNat dsR < USIZE →
      isErr (Ezip.parse_v1 (pre ++ 40 :: (dsL ++ 120 :: dsR))) = true ∧
      isErr (Ezip.parse_v2 (pre ++ 40 :: (dsL ++ 120 :: dsR))) = true) ∧
    (∀ ds : List Nat, ds ≠ [] → (∀ b ∈ ds, isDigitNat b = true) →
      USIZE ≤ digitsToNat ds →
      Ezip.parse_v1 (40 :: ds) = .ok (Ezip.build [.Uncompressed []]) ∧
      Ezip.parse_v2 (40 :: ds) = .ok (Ezip.build [.Uncompressed []])) := by
  refine ⟨?_, ?_, ?_⟩
  · intro pre ds hpre hne hds hlt
    exact parse_both_err_of_opener_incomplete
      (compressed_v1_of_marker_incomplete (marker_missing_x hne hds hlt))
      (fun f => compressed_v2_succ_of_marker_incomplete (marker_missing_x hne hds hlt))
      pre hpre
  · intro pre dsL dsR hpre hLne hLd hLlt hRne hRd hRlt
    exact parse_both_err_of_opener_incomplete
      (compressed_v1_of_marker_incomplete
        (marker_missing_close hLne hLd hLlt hRne hRd hRlt))
      (fun f => compressed_v2_succ_of_marker_incomplete
        (marker_missing_close hLne hLd hLlt hRne hRd hRlt))
      pre hpre
  · intro ds hne hds hge
    have hm : marker (40 :: ds) = .error := marker_overflow_x hne hds hge
    constructor
    · have hp1 : altNode compressed_v1 (40 :: ds) =
          .done (40 :: ds) (.Uncompressed []) := by
        rw [altNode_error (compressed_v1_of_marker_error hm)]
        exact uncompressed_at_marker ds
      have hn1 : nodes_v1 (40 :: ds) = .done (40 :: ds) [.Uncompressed []] :=
        many1_no_progress hp1 (by simp)
      exact parse_v1_of_nodes_done hn1
    · have hp2 : altNode (compressed_v2 ((40 :: ds).length + 1)) (40 :: ds) =
          .done (40 :: ds) (.Uncompressed []) := by
        rw [altNode_error (compressed_v2_succ_of_marker_error hm)]
        exact uncompressed_at_marker ds
      have hn2 : nodes_v2 ((40 :: ds).length + 1) (40 :: ds) =
          .done (40 :: ds) [.Uncompressed []] := by
        simp only [nodes_v2]
        exact many1_no_progress hp2 (by simp)
      exact parse_v2_of_nodes_done hn2

/-- C6 witness: the amended theorem applied to `"X(12"` (a literal, then an
opener followed by digits, input ending before the `x`: both parsers fail)
and to `"("` followed by the 20 digits of `2^64` (an overflowing digit run:
`parse_v1` succeeds with a single empty literal). -/
theorem claim6_witness :
    (isErr (Ezip.parse_v1 [88, 40, 49, 50]) = true ∧
     isErr (Ezip.parse_v2 [88, 40, 49, 50]) = true) ∧
    Ezip.parse_v1
      [40, 49, 56, 52, 52, 54, 55, 52, 52, 48, 55, 51, 55, 48, 57, 53, 53,
       49, 54, 49, 54] = .ok (Ezip.build [.Uncompressed []]) :=
  ⟨claim6_amended_malformed.1 [88] [49, 50] (by decide) (by decide) (by decide)
     (by decide),
   (claim6_amended_malformed.2.2
     [49, 56, 52, 52, 54, 55, 52, 52, 48, 55, 51, 55, 48, 57, 53, 53, 49,
      54, 49, 54] (by decide) (by decide) (by decide)).1⟩

/-- C7 counterexample: `"(5x2)(9x9)ab"` contains the well-formed marker
`"(9x9)"` followed by only 2 < 9 characters, yet `parse_v1` succeeds (with
length 12): that marker sits inside the preceding `(5x2)` marker's verbatim
payload and is never parsed, so the claimed fatal error does not occur. -/
theorem claim7_counterexample :
    marker [40, 57, 120, 57, 41, 97, 98] = .done [97, 98] (9, 9) ∧
    ([97, 98] : List Nat).length < 9 ∧
    Ezip.parse_v1 [40, 53, 120, 50, 41, 40, 57, 120, 57, 41, 97, 98] =
      .ok (.cons (.Compressed 2 (.cons (.Uncompressed [40, 57, 120, 57, 41]) .nil))
        (.cons (.Uncompressed [97, 98]) .nil)) ∧
    lenOf (Ezip.parse_v1 [40, 53, 120, 50, 41, 40, 57, 120, 57, 41, 97, 98]) = .ok 12 :=
  ⟨rfl, by decide, rfl, rfl⟩

/-- C7 (amended): a truncated marker the parser actually reaches is fatal
in both modes: for every input consisting of a (possibly empty) literal
run, a well-formed marker header, and a remainder shorter than the declared
payload length, `parse_v1` and `parse_v2` both return an error and no
Document is produced.  A truncated marker hidden inside a preceding
flat-mode marker's payload is treated as data instead, and `parse_v1` can
succeed on such an input. -/
theorem claim7_amended_truncated :
    (∀ pre dsL dsR rest : List Nat, (∀ b ∈ pre, not_marker_start b = true) →
      dsL ≠ [] → (∀ b ∈ dsL, isDigitNat b = true) → digitsToNat dsL < USIZE →
      dsR ≠ [] → (∀ b ∈ dsR, isDigitNat b = true) → digitsToNat dsR < USIZE →
      rest.length < digitsToNat dsL →
      isErr (Ezip.parse_v1 (pre ++ 40 :: (dsL ++ 120 :: (dsR ++ 41 :: rest)))) = true ∧
      isErr (Ezip.parse_v2 (pre ++ 40 :: (dsL ++ 120 :: (dsR ++ 41 :: rest)))) = true) ∧
    lenOf (Ezip.parse_v1 [40, 53, 120, 50, 41, 40, 57, 120, 57, 41, 97, 98]) = .ok 12 := by
  refine ⟨?_, rfl⟩
  intro pre dsL dsR rest hpre hLne hLd hLlt hRne hRd hRlt hshort
  have hm := marker_app (t := rest) hLne hLd hLlt hRne hRd hRlt
  have hml := marker_len_app (t := rest) hLne hLd hLlt hRne hRd hRlt
  have hc1 : compressed_v1 (40 :: (dsL ++ 120 :: (dsR ++ 41 :: rest))) =
      .incomplete (.size (digitsToNat dsL)) :=
    compressed_v1_short hm hshort
  have hc2 : ∀ f, compressed_v2 (f + 1) (40 :: (dsL ++ 120 :: (dsR ++ 41 :: rest))) =
      .incomplete (.size (digitsToNat dsL)) :=
    fun f => compressed_v2_succ_short hm hml hshort
  cases pre with
  | nil =>
      constructor
      · have hn : nodes_v1 (40 :: (dsL ++ 120 :: (dsR ++ 41 :: rest))) =
            .incomplete (.size (digitsToNat dsL)) :=
          many1_first_incomplete (altNode_incomplete hc1)
        show isErr (Ezip.parse_v1 (40 :: (dsL ++ 120 :: (dsR ++ 41 :: rest)))) = true
        rw [parse_v1_of_nodes_incomplete hn]
        rfl
      · have hn : nodes_v2 ((40 :: (dsL ++ 120 :: (dsR ++ 41 :: rest))).length + 1)
            (40 :: (dsL ++ 120 :: (dsR ++ 41 :: rest))) =
            .incomplete (.size (digitsToNat dsL)) := by
          simp only [nodes_v2]
          exact many1_first_incomplete (altNode_incomplete (hc2 _))
        show isErr (Ezip.parse_v2 (40 :: (dsL ++ 120 :: (dsR ++ 41 :: rest)))) = true
        rw [parse_v2_of_nodes_incomplete hn]
        rfl
  | cons a pre' =>
      have hmkerr : marker ((a :: pre') ++ 40 :: (dsL ++ 120 :: (dsR ++ 41 :: rest))) =
          .error := by
        have ha : a ≠ 40 := by
          have h := hpre a (by simp)
          simpa [not_marker_start] using h
        exact marker_head_not40 ha
      have hu : uncompressed ((a :: pre') ++ 40 :: (dsL ++ 120 :: (dsR ++ 41 :: rest))) =
          .done (40 :: (dsL ++ 120 :: (dsR ++ 41 :: rest)))
            (.Uncompressed (trim_right (a :: pre'))) :=
        uncompressed_before_marker hpre
      have hcons_ne : (40 :: (dsL ++ 120 :: (dsR ++ 41 :: rest))) ≠ [] := by simp
      constructor
      · have h1 : altNode compressed_v1
            ((a :: pre') ++ 40 :: (dsL ++ 120 :: (dsR ++ 41 :: rest))) =
            .done (40 :: (dsL ++ 120 :: (dsR ++ 41 :: rest)))
              (.Uncompressed (trim_right (a :: pre'))) := by
          rw [altNode_error (compressed_v1_of_marker_error hmkerr)]
          exact hu
        have h2 : altNode compressed_v1 (40 :: (dsL ++ 120 :: (dsR ++ 41 :: rest))) =
            .incomplete (.size (digitsToNat dsL)) :=
          altNode_incomplete hc1
        have hn : nodes_v1 ((a :: pre') ++ 40 :: (dsL ++ 120 :: (dsR ++ 41 :: rest))) =
            .incomplete (.size (digitsToNat dsL)) :=
          many1_second_incomplete h1 hcons_ne h2
        rw [parse_v1_of_nodes_incomplete hn]
        rfl
      · have h1 : altNode (compressed_v2
            (((a :: pre') ++ 40 :: (dsL ++ 120 :: (dsR ++ 41 :: rest))).length + 1))
            ((a :: pre') ++ 40 :: (dsL ++ 120 :: (dsR ++ 41 :: rest))) =
            .done (40 :: (dsL ++ 120 :: (dsR ++ 41 :: rest)))
              (.Uncompressed (trim_right (a :: pre'))) := by
          rw [altNode_error (compressed_v2_succ_of_marker_error hmkerr)]
          exact hu
        have h2 : altNode (compressed_v2
            (((a :: pre') ++ 40 :: (dsL ++ 120 :: (dsR ++ 41 :: rest))).length + 1))
            (40 :: (dsL ++ 120 :: (dsR ++ 41 :: rest))) =
            .incomplete (.size (digitsToNat dsL)) :=
          altNode_incomplete (hc2 _)
        have hn : nodes_v2
            (((a :: pre') ++ 40 :: (dsL ++ 120 :: (dsR ++ 41 :: rest))).length + 1)
            ((a :: pre') ++ 40 :: (dsL ++ 120 :: (dsR ++ 41 :: rest))) =
            .incomplete (.size (digitsToNat dsL)) := by
          simp only [nodes_v2]
          exact many1_second_incomplete h1 hcons_ne h2
        rw [parse_v2_of_nodes_incomplete hn]
        rfl

/-- C7 witness: the amended theorem applied to `"X(9x9)ab"` (a literal,
then a marker declaring 9 payload characters with only 2 remaining): both
parsers fail. -/
theorem claim7_witness :
    isErr (Ezip.parse_v1 [88, 40, 57, 120, 57, 41, 97, 98]) = true ∧
    isErr (Ezip.parse_v2 [88, 40, 57, 120, 57, 41, 97, 98]) = true :=
  claim7_amended_truncated.1 [88] [57] [57] [97, 98] (by decide) (by decide)
    (by decide) (by decide) (by decide) (by decide) (by decide) (by decide)

/-- C9: in every Document produced by the flat-mode parser, the body of a
`Compressed` node is exactly one `Uncompressed` node; and whenever
`compressed_v1` succeeds, that node's text is the `len` characters
immediately following the marker, taken verbatim (no re-parse, no trim),
with length equal to the marker's declared `len` field. -/
theorem claim9_flat_repeat_body :
    (∀ (s : List Nat) (doc : Ezip), Ezip.parse_v1 s = .ok doc →
      ∀ n ∈ doc.toList, flatRepeatBody n) ∧
    (∀ (s r : List Nat) (n : EzipNode), compressed_v1 s = .done r n →
      ∃ rest len rep, marker s = .done rest (len, rep) ∧
        n = .Compressed rep (Ezip.build_uncompressed (rest.take len)) ∧
        (rest.take len).length = len ∧ r = rest.drop len) := by
  constructor
  · intro s doc h
    obtain ⟨r, l, hn, rfl⟩ := parse_v1_ok_elim h
    rw [build_toList]
    simp only [nodes_v1] at hn
    exact many1_all (altNode_all
      (fun s r n hc => by
        obtain ⟨rest, len, rep, hm, hle, hn2, hr⟩ := compressed_v1_shape hc
        rw [hn2]
        exact ⟨rest.take len, rfl⟩)
      (fun s r n hu => by
        rw [uncompressed] at hu
        injection hu with h1 h2
        rw [← h2]
        trivial)) hn
  · intro s r n h
    obtain ⟨rest, len, rep, hm, hle, hn2, hr⟩ := compressed_v1_shape h
    refine ⟨rest, len, rep, hm, hn2, ?_, hr⟩
    rw [List.length_take]
    omega

/-- C9 witness: the invariant instantiated on `"(3x3)XYZ"`, whose single
`Compressed` node has the one-literal body `"XYZ"`. -/
theorem claim9_witness :
    flatRepeatBody (.Compressed 3 (Ezip.build_uncompressed [88, 89, 90])) :=
  claim9_flat_repeat_body.1 [40, 51, 120, 51, 41, 88, 89, 90]
    (Ezip.build [.Compressed 3 (Ezip.build_uncompressed [88, 89, 90])]) rfl
    (.Compressed 3 (Ezip.build_uncompressed [88, 89, 90])) (by simp [build_toList])

/-- C10 counterexample: the claim's "only when" direction fails: this
Document has an intermediate product `2^63 * 4 = 2^65` above `2^64` (so it
does not fit), yet the wrapping evaluation still equals the exact length,
because the overflowed subtree is multiplied by a repeat count of 0. -/
theorem claim10_counterexample :
    (Ezip.cons (.Compressed 0 (.cons (.Compressed (2 ^ 63)
        (.cons (.Uncompressed [0, 0, 0, 0]) .nil)) .nil)) .nil).fitsU = false ∧
    (Ezip.cons (.Compressed 0 (.cons (.Compressed (2 ^ 63)
        (.cons (.Uncompressed [0, 0, 0, 0]) .nil)) .nil)) .nil).uncompressed_len =
      (Ezip.cons (.Compressed 0 (.cons (.Compressed (2 ^ 63)
        (.cons (.Uncompressed [0, 0, 0, 0]) .nil)) .nil)) .nil).exactLen :=
  ⟨by decide, by decide⟩

/-- C10 (amended): `uncompressed_len` computes in wrapping 64-bit `usize`
arithmetic: whenever every product `repeat × body length` and every partial
sum stays below `2^64` it agrees with the mathematically exact length, and
there are Documents (with an oversized product) on which the wrapped result
differs from the exact one. -/
theorem claim10_amended_wrapping :
    (∀ e : Ezip, e.fitsU = true → e.uncompressed_len = e.exactLen) ∧
    (∃ e : Ezip, e.uncompressed_len ≠ e.exactLen) :=
  ⟨fun e h => ezip_len_eq_of_fits e h,
   ⟨.cons (.Compressed (2 ^ 63) (.cons (.Uncompressed [0, 0, 0, 0]) .nil)) .nil,
    by decide⟩⟩

/-- C10 witness: the fitting direction applied to the Document of
`"(3x3)XYZ"`, where the wrapping and exact lengths agree. -/
theorem claim10_witness :
    (Ezip.cons (.Compressed 3 (Ezip.build_uncompressed [88, 89, 90])) .nil).uncompressed_len =
      (Ezip.cons (.Compressed 3 (Ezip.build_uncompressed [88, 89, 90])) .nil).exactLen :=
  claim10_amended_wrapping.1
    (.cons (.Compressed 3 (Ezip.build_uncompressed [88, 89, 90])) .nil) (by decide)

end Explosives
